import Mathlib

/-!
Verification of the marimo notebook `analysis.py`: a slider-driven synthetic
linear-regression demo.  The numeric arrays of the notebook are embedded as
lists of rationals (exact arithmetic in place of IEEE doubles).  The stream of
standard-normal values produced by the seed-42 generator is abstracted as a
function `z : ℕ → ℚ`; `rng.normal 0 σ` at stream position `i` is `σ * z i`,
which is exact for `σ = 0` and faithful to the generator resetting performed
by `np.random.default_rng 42` inside the data cell.
-/

namespace MarimoAnalysis

open Finset

/-- Cell 1, `n = mo.ui.slider(50, 1000, step=50, value=300)`: the set of values
the sample-size slider can take. -/
def SliderReachableN (n : ℕ) : Prop := ∃ k : ℕ, k ≤ 19 ∧ n = 50 + 50 * k

/-- Cell 1, `sigma = mo.ui.slider(0.0, 5.0, step=0.1, value=1.0)`: the set of
values the noise slider can take. -/
def SliderReachableSigma (σ : ℚ) : Prop := ∃ k : ℕ, k ≤ 50 ∧ σ = (k : ℚ) / 10

/-- Model of `np.linspace a b num`: `num` evenly spaced points from `a` to `b`
inclusive (`[]` for `num = 0`, `[a]` for `num = 1`). -/
def linspace (a b : ℚ) (num : ℕ) : List ℚ :=
  if num = 0 then []
  else if num = 1 then [a]
  else (List.range num).map fun i : ℕ => a + (b - a) * (i : ℚ) / ((num : ℚ) - 1)

/-- The data frame `df = pd.DataFrame({"x": x, "y": y})` of Cell 2: a pair of
columns. -/
structure Dataset where
  x : List ℚ
  y : List ℚ
deriving DecidableEq

/-- State of a numpy random generator: its position in the abstract stream `z`
of standard-normal draws. -/
structure RngState where
  pos : ℕ
deriving DecidableEq

/-- Model of `np.random.default_rng 42`: a freshly seeded generator starts at
position 0 of the seed-42 stream. -/
def defaultRng : RngState := ⟨0⟩

/-- Model of `rng.normal 0.0 σ n`: draw `n` normal values with mean 0 and
standard deviation `σ` from the generator, advancing its state.  The draw at
stream position `p` is `σ * z p`. -/
def drawNormals (z : ℕ → ℚ) (g : RngState) (σ : ℚ) (n : ℕ) : List ℚ × RngState :=
  ((List.range n).map fun i => σ * z (g.pos + i), ⟨g.pos + n⟩)

/-- Cell 2 noise vector `eps = rng.normal(0.0, float(sigma.value), size=x.shape)`
with the fresh seed-42 generator. -/
def noiseDraws (z : ℕ → ℚ) (σ : ℚ) (n : ℕ) : List ℚ :=
  (List.range n).map fun i => σ * z i

/-- Cell 2 as a pure function of the slider values: `x = np.linspace(0, 10, n)`
and `y = 2.5 * x + 5 + eps`. -/
def dataCell (z : ℕ → ℚ) (n : ℕ) (σ : ℚ) : Dataset :=
  let x := linspace 0 10 n
  { x := x, y := List.zipWith (fun xi e => 2.5 * xi + 5 + e) x (noiseDraws z σ n) }

/-- Cell 2 as an execution in a stateful world: `g` is whatever generator state
is left over from earlier cell executions.  The first line of the cell,
`rng = np.random.default_rng(42)`, replaces it with a fresh seed-42 generator,
so `g` is discarded. -/
def execDataCell (z : ℕ → ℚ) (g : RngState) (n : ℕ) (σ : ℚ) : Dataset × RngState :=
  let rng := defaultRng
  let x := linspace 0 10 n
  let draws := drawNormals z rng σ n
  ({ x := x, y := List.zipWith (fun xi e => 2.5 * xi + 5 + e) x draws.1 }, draws.2)

/-- Modelled from the spec (section 4.2 wording, for the refinement check of the
data cell): the i-th point has `x i` evenly spaced over `[0, 10]` and
`y i = 2.5 * x i + 5 + noise i` with `noise i` the mean-0, std-`σ` normal draw
`σ * z i` of the fixed-seed stream. -/
def dataSpec (z : ℕ → ℚ) (n : ℕ) (σ : ℚ) : Dataset :=
  { x := linspace 0 10 n,
    y := (List.range n).map fun i => 2.5 * ((linspace 0 10 n).getD i 0) + 5 + σ * z i }

/-- Sum of pointwise products, `Σ x i * y i`. -/
def Sxy (x y : List ℚ) : ℚ := (List.zipWith (· * ·) x y).sum

/-- Sum of squares, `Σ (x i)^2`. -/
def Sxx (x : List ℚ) : ℚ := (x.map fun t => t ^ 2).sum

/-- Denominator `n * Σ x^2 - (Σ x)^2` of the degree-1 normal equations solved by
`np.polyfit(x, y, 1)`. -/
def olsDenom (x : List ℚ) : ℚ := (x.length : ℚ) * Sxx x - x.sum ^ 2

/-- Slope of `np.polyfit(df["x"], df["y"], 1)` (Cell 3): the closed-form
ordinary-least-squares solution of the degree-1 normal equations. -/
def polyfitSlope (x y : List ℚ) : ℚ :=
  ((x.length : ℚ) * Sxy x y - x.sum * y.sum) / olsDenom x

/-- Intercept of `np.polyfit(df["x"], df["y"], 1)` (Cell 3). -/
def polyfitIntercept (x y : List ℚ) : ℚ :=
  (y.sum - polyfitSlope x y * x.sum) / (x.length : ℚ)

/-- Arithmetic mean of a list. -/
def mean (x : List ℚ) : ℚ := x.sum / (x.length : ℚ)

/-- Centered sum of squares `Σ (x i - mean x)^2`. -/
def cssq (x : List ℚ) : ℚ := (x.map fun t => (t - mean x) ^ 2).sum

/-- Centered sum of products `Σ (x i - mean x) * (y i - mean y)`. -/
def csum2 (x y : List ℚ) : ℚ :=
  (List.zipWith (fun s t => (s - mean x) * (t - mean y)) x y).sum

/-- Model of `np.corrcoef(x, y)[0, 1]` (Cell 3): the covariance matrix of the
rows (sample covariances with `N - 1` in the denominator) is normalized by the
square roots of its diagonal. -/
noncomputable def corrcoef (x y : List ℚ) : ℝ :=
  ((csum2 x y / ((x.length : ℚ) - 1) : ℚ) : ℝ) /
    (Real.sqrt ((cssq x / ((x.length : ℚ) - 1) : ℚ) : ℝ) *
      Real.sqrt ((cssq y / ((x.length : ℚ) - 1) : ℚ) : ℝ))

/-- Modelled from the spec (glossary wording, for the refinement check of Cell
3): the Pearson correlation coefficient of `(x, y)` computed independently from
the same data. -/
noncomputable def pearson (x y : List ℚ) : ℝ :=
  ((csum2 x y : ℚ) : ℝ) /
    (Real.sqrt ((cssq x : ℚ) : ℝ) * Real.sqrt ((cssq y : ℚ) : ℝ))

/-- Cell 3 predicted values `y_hat = slope * df["x"] + intercept`. -/
def y_hat (slope intercept : ℚ) (x : List ℚ) : List ℚ :=
  x.map fun t => slope * t + intercept

/-- Modelled from the spec (section 4.3 wording, for the refinement check of
Cell 3): the sum of squared residuals of the degree-1 polynomial `a * x + b`
over the data `(x, y)`. -/
def ssr (x y : List ℚ) (a b : ℚ) : ℚ :=
  (List.zipWith (fun xi yi => (yi - (a * xi + b)) ^ 2) x y).sum

/-- Round to the nearest integer, ties to the even integer, as the fixed-point
formatting of floats does. -/
def roundHalfEven (q : ℚ) : ℤ :=
  let f := ⌊q⌋
  let r := q - f
  if r < 1 / 2 then f
  else if 1 / 2 < r then f + 1
  else if f % 2 = 0 then f else f + 1

/-- The `k` decimal digits of `m` (most significant first), zero-padded to
exactly `k` characters. -/
def decimalDigits (m k : ℕ) : String :=
  String.mk ((List.range k).map fun i => Nat.digitChar (m / 10 ^ (k - 1 - i) % 10))

/-- Model of the Python fixed-point format `{q:.kf}`: round `q * 10^k` half to
even, then print sign, integer part and exactly `k` fractional digits. -/
def formatFixed (q : ℚ) (k : ℕ) : String :=
  let m := (roundHalfEven (q * (10 : ℚ) ^ k)).natAbs
  let sign := if q < 0 then "-" else ""
  if k = 0 then sign ++ Nat.repr m
  else sign ++ Nat.repr (m / 10 ^ k) ++ "." ++ decimalDigits (m % 10 ^ k) k

/-- Cell 4: the Markdown report string, with slope and intercept formatted to 2
decimals, `r` to 3 decimals, `n` as an integer and `σ` to 1 decimal. -/
def report (σ : ℚ) (nv : ℕ) (slope intercept r : ℚ) : String :=
  "\n### Relationship summary\n- **Model**: $y = " ++ formatFixed slope 2 ++ "x + "
    ++ formatFixed intercept 2 ++ "$\n- **Correlation**: $r = " ++ formatFixed r 3
    ++ "$\n- **Sample size**: **" ++ Nat.repr nv
    ++ "**\n- **Noise std (σ)**: **" ++ formatFixed σ 1
    ++ "**\n\n_As σ increases, the points spread further from the line; correlation and the stability of the fitted slope typically decrease._\n"

/-- The string `t` occurs as a substring of `s`. -/
def containsSub (s t : String) : Prop := ∃ p q : List Char, s.data = p ++ t.data ++ q

/-- The string `s` is a fixed-point decimal with exactly `k` fractional digits:
an optional minus sign, an integer part, a point, and `k` digit characters. -/
def IsFixedPointString (s : String) (k : ℕ) : Prop :=
  ∃ (sign : String) (ip : ℕ) (frac : List Char),
    (sign = "" ∨ sign = "-") ∧
    s = sign ++ Nat.repr ip ++ "." ++ String.mk frac ∧
    frac.length = k ∧ ∀ c ∈ frac, c.isDigit = true

/-- One trace of the plotly figure, as added by `fig.add_scatter`. -/
structure Trace where
  x : List ℚ
  y : List ℚ
  mode : String
  name : String
deriving DecidableEq

/-- The legend layout set by `fig.update_layout(legend=dict(...))`. -/
structure Legend where
  orientation : String
  yanchor : String
  y : ℚ
  xanchor : String
  x : ℚ
deriving DecidableEq

/-- The plotly figure specification built in Cell 5. -/
structure Figure where
  traces : List Trace
  title : String
  xaxisTitle : String
  yaxisTitle : String
  template : String
  legend : Legend
deriving DecidableEq

/-- Cell 5: scatter of the observations, line of the fit, title, axis labels
and a horizontal legend anchored above the top-right corner. -/
def chartCell (d : Dataset) (yh : List ℚ) : Figure :=
  { traces :=
      [ { x := d.x, y := d.y, mode := "markers", name := "observations" },
        { x := d.x, y := yh, mode := "lines", name := "fit" } ],
    title := "Linear relationship with controllable noise",
    xaxisTitle := "x",
    yaxisTitle := "y",
    template := "plotly_white",
    legend := { orientation := "h", yanchor := "bottom", y := 102 / 100,
                xanchor := "right", x := 1 } }

/-- Concrete stand-in for the seed-42 standard-normal stream, used to evaluate
witnesses on explicit inputs. -/
def zdemo : ℕ → ℚ := fun i => (i : ℚ)

lemma sum_map_range (f : ℕ → ℚ) (n : ℕ) :
    ((List.range n).map f).sum = ∑ i in range n, f i := by
  induction n with
  | zero => simp
  | succ n ih => rw [List.range_succ]; simp [ih, Finset.sum_range_succ]

lemma list_sum_getD (l : List ℚ) : l.sum = ∑ i in range l.length, l.getD i 0 := by
  induction l with
  | nil => simp
  | cons h t ih =>
      rw [List.sum_cons, List.length_cons, Finset.sum_range_succ', ih]
      simp [add_comm]

lemma map_sum_getD (f : ℚ → ℚ) (l : List ℚ) :
    (l.map f).sum = ∑ i in range l.length, f (l.getD i 0) := by
  induction l with
  | nil => simp
  | cons h t ih =>
      rw [List.map_cons, List.sum_cons, List.length_cons, Finset.sum_range_succ', ih]
      simp [add_comm]

lemma zipWith_sum_getD (f : ℚ → ℚ → ℚ) :
    ∀ (x y : List ℚ), y.length = x.length →
      (List.zipWith f x y).sum = ∑ i in range x.length, f (x.getD i 0) (y.getD i 0)
  | [], [], _ => by simp
  | [], _ :: _, h => by simp at h
  | _ :: _, [], h => by simp at h
  | a :: x, b :: y, h => by
      rw [List.zipWith_cons_cons, List.sum_cons, List.length_cons,
        Finset.sum_range_succ', zipWith_sum_getD f x y (by simpa using h)]
      simp [add_comm]

lemma getD_map (f : ℚ → ℚ) :
    ∀ (l : List ℚ) (i : ℕ), i < l.length → (l.map f).getD i 0 = f (l.getD i 0)
  | [], i, h => by simp at h
  | a :: l, 0, _ => by simp
  | a :: l, i + 1, h => by
      simpa using getD_map f l i (by simpa using h)

lemma zipWith_map_map (f : ℚ → ℚ → ℚ) (g h : ℕ → ℚ) (l : List ℕ) :
    List.zipWith f (l.map g) (l.map h) = l.map fun i => f (g i) (h i) := by
  induction l with
  | nil => simp
  | cons a t ih => simp [ih]

lemma zipWith_map_self (g : ℚ → ℚ → ℚ) (f : ℚ → ℚ) (x : List ℚ) :
    List.zipWith g x (x.map f) = x.map fun t => g t (f t) := by
  induction x with
  | nil => simp
  | cons a t ih => simp [ih]

lemma zipWith_replicate_right (f : ℚ → ℚ → ℚ) (c : ℚ) :
    ∀ (x : List ℚ) (n : ℕ), x.length ≤ n →
      List.zipWith f x (List.replicate n c) = x.map fun t => f t c
  | [], _, _ => by simp
  | a :: x, 0, h => by simp at h
  | a :: x, n + 1, h => by
      rw [List.replicate_succ, List.zipWith_cons_cons, List.map_cons,
        zipWith_replicate_right f c x n (by simpa using h)]

lemma sum_range_id_q (n : ℕ) :
    ∑ i in range n, (i : ℚ) = n * (n - 1) / 2 := by
  induction n with
  | zero => simp
  | succ n ih => rw [Finset.sum_range_succ, ih]; push_cast; ring

lemma sum_range_sq_q (n : ℕ) :
    ∑ i in range n, (i : ℚ) ^ 2 = n * (n - 1) * (2 * n - 1) / 6 := by
  induction n with
  | zero => simp
  | succ n ih => rw [Finset.sum_range_succ, ih]; push_cast; ring

lemma linspace_eq_map {n : ℕ} (hn : 2 ≤ n) :
    linspace 0 10 n = (List.range n).map fun i : ℕ => 10 * (i : ℚ) / ((n : ℚ) - 1) := by
  unfold linspace
  rw [if_neg (by omega), if_neg (by omega)]
  exact List.map_congr_left fun i _ => by ring

lemma linspace_length (a b : ℚ) (n : ℕ) : (linspace a b n).length = n := by
  unfold linspace
  split_ifs with h1 h2
  · simp [h1]
  · simp [h2]
  · simp

lemma cast_pred_ne_zero {n : ℕ} (hn : 2 ≤ n) : ((n : ℚ) - 1) ≠ 0 := by
  have h2 : (2 : ℚ) ≤ (n : ℚ) := by exact_mod_cast hn
  intro h
  linarith

lemma linspace_getD {n i : ℕ} (hn : 2 ≤ n) (hi : i < n) :
    (linspace 0 10 n).getD i 0 = 10 * (i : ℚ) / ((n : ℚ) - 1) := by
  rw [linspace_eq_map hn]
  have hlen : i < ((List.range n).map fun i : ℕ => 10 * (i : ℚ) / ((n : ℚ) - 1)).length := by
    simpa using hi
  rw [List.getD_eq_getElem _ 0 hlen, List.getElem_map, List.getElem_range]

lemma linspace_sum {n : ℕ} (hn : 2 ≤ n) : (linspace 0 10 n).sum = 5 * (n : ℚ) := by
  have hne := cast_pred_ne_zero hn
  rw [linspace_eq_map hn, sum_map_range]
  have e : ∑ i in range n, 10 * (i : ℚ) / ((n : ℚ) - 1)
      = (10 / ((n : ℚ) - 1)) * ∑ i in range n, (i : ℚ) := by
    rw [Finset.mul_sum]
    exact Finset.sum_congr rfl fun i _ => by ring
  rw [e, sum_range_id_q]
  field_simp
  ring

lemma linspace_sumsq {n : ℕ} (hn : 2 ≤ n) :
    Sxx (linspace 0 10 n) = 100 * (n : ℚ) * (2 * (n : ℚ) - 1) / (6 * ((n : ℚ) - 1)) := by
  have hne := cast_pred_ne_zero hn
  rw [Sxx, linspace_eq_map hn, List.map_map]
  have e1 : ((fun t : ℚ => t ^ 2) ∘ fun i : ℕ => 10 * (i : ℚ) / ((n : ℚ) - 1))
      = fun i : ℕ => (10 * (i : ℚ) / ((n : ℚ) - 1)) ^ 2 := rfl
  rw [e1, sum_map_range]
  have e2 : ∑ i in range n, (10 * (i : ℚ) / ((n : ℚ) - 1)) ^ 2
      = (100 / ((n : ℚ) - 1) ^ 2) * ∑ i in range n, (i : ℚ) ^ 2 := by
    rw [Finset.mul_sum]
    exact Finset.sum_congr rfl fun i _ => by rw [div_pow]; ring
  rw [e2, sum_range_sq_q]
  field_simp
  ring

lemma olsDenom_linspace {n : ℕ} (hn : 2 ≤ n) :
    olsDenom (linspace 0 10 n) = 25 * (n : ℚ) ^ 2 * ((n : ℚ) + 1) / (3 * ((n : ℚ) - 1)) := by
  have hne := cast_pred_ne_zero hn
  rw [olsDenom, linspace_length, linspace_sum hn, linspace_sumsq hn]
  field_simp
  ring

lemma olsDenom_linspace_pos {n : ℕ} (hn : 2 ≤ n) : 0 < olsDenom (linspace 0 10 n) := by
  have h2 : (2 : ℚ) ≤ (n : ℚ) := by exact_mod_cast hn
  rw [olsDenom_linspace hn]
  apply div_pos
  · nlinarith
  · linarith

lemma linspace_pairwise_le {n : ℕ} (hn : 2 ≤ n) :
    (linspace 0 10 n).Pairwise (· ≤ ·) := by
  have h2 : (2 : ℚ) ≤ (n : ℚ) := by exact_mod_cast hn
  have hc : (0 : ℚ) < (n : ℚ) - 1 := by linarith
  rw [linspace_eq_map hn]
  refine List.Pairwise.map _ ?_ (List.pairwise_lt_range n)
  intro a b hab
  have hab2 : (a : ℚ) ≤ (b : ℚ) := by exact_mod_cast hab.le
  gcongr

lemma linspace_head {n : ℕ} (hn : 2 ≤ n) : (linspace 0 10 n).head? = some 0 := by
  rw [linspace_eq_map hn]
  obtain ⟨m, rfl⟩ : ∃ m, n = m + 1 := ⟨n - 1, by omega⟩
  rw [List.range_succ_eq_map]
  simp

lemma linspace_getLast {n : ℕ} (hn : 2 ≤ n) : (linspace 0 10 n).getLast? = some 10 := by
  rw [linspace_eq_map hn]
  obtain ⟨m, rfl⟩ : ∃ m, n = m + 1 := ⟨n - 1, by omega⟩
  have hm : 1 ≤ m := by omega
  have hm0 : ((m : ℚ)) ≠ 0 := Nat.cast_ne_zero.mpr (by omega)
  rw [List.range_succ, List.map_append, List.map_cons, List.map_nil,
    List.getLast?_concat]
  congr 1
  push_cast
  field_simp

lemma sum_map_affine (x : List ℚ) (a b : ℚ) :
    (x.map fun t => a * t + b).sum = a * x.sum + b * (x.length : ℚ) := by
  induction x with
  | nil => simp
  | cons h t ih =>
      rw [List.map_cons, List.sum_cons, ih, List.sum_cons, List.length_cons]
      push_cast
      ring

lemma Sxy_map_affine (x : List ℚ) (a b : ℚ) :
    Sxy x (x.map fun t => a * t + b) = a * Sxx x + b * x.sum := by
  induction x with
  | nil => simp [Sxy, Sxx]
  | cons h t ih =>
      simp only [Sxy, Sxx, List.map_cons, List.zipWith_cons_cons, List.sum_cons] at ih ⊢
      rw [ih]
      ring

lemma length_cast_pos_of_olsDenom {x : List ℚ} (hD : olsDenom x ≠ 0) :
    0 < (x.length : ℚ) := by
  cases x with
  | nil => exact absurd (by simp [olsDenom, Sxx]) hD
  | cons h t =>
      rw [List.length_cons]
      push_cast
      positivity

lemma polyfitSlope_affine {x : List ℚ} (a b : ℚ) (hD : olsDenom x ≠ 0) :
    polyfitSlope x (x.map fun t => a * t + b) = a := by
  unfold polyfitSlope
  rw [Sxy_map_affine, sum_map_affine]
  have hnum : (x.length : ℚ) * (a * Sxx x + b * x.sum)
      - x.sum * (a * x.sum + b * (x.length : ℚ)) = a * olsDenom x := by
    unfold olsDenom
    ring
  rw [hnum, mul_div_assoc, div_self hD, mul_one]

lemma polyfitIntercept_affine {x : List ℚ} (a b : ℚ) (hD : olsDenom x ≠ 0) :
    polyfitIntercept x (x.map fun t => a * t + b) = b := by
  have hn := (length_cast_pos_of_olsDenom hD).ne'
  unfold polyfitIntercept
  rw [polyfitSlope_affine a b hD, sum_map_affine]
  field_simp

lemma sum_map_sub_sq (x : List ℚ) (m : ℚ) :
    (x.map fun t => (t - m) ^ 2).sum = Sxx x - 2 * m * x.sum + m ^ 2 * (x.length : ℚ) := by
  induction x with
  | nil => simp [Sxx]
  | cons h t ih =>
      simp only [Sxx, List.map_cons, List.sum_cons, List.length_cons] at ih ⊢
      rw [ih]
      push_cast
      ring

lemma cssq_scaled {x : List ℚ} (hx : (x.length : ℚ) ≠ 0) :
    (x.length : ℚ) * cssq x = olsDenom x := by
  unfold cssq mean olsDenom
  rw [sum_map_sub_sq]
  field_simp
  ring

lemma cssq_nonneg (x : List ℚ) : 0 ≤ cssq x := by
  unfold cssq
  apply List.sum_nonneg
  intro a ha
  obtain ⟨t, _, rfl⟩ := List.mem_map.mp ha
  positivity

lemma mean_map_affine {x : List ℚ} (a b : ℚ) (hx : (x.length : ℚ) ≠ 0) :
    mean (x.map fun t => a * t + b) = a * mean x + b := by
  unfold mean
  rw [sum_map_affine, List.length_map]
  field_simp

lemma csum2_affine {x : List ℚ} (a b : ℚ) (hx : (x.length : ℚ) ≠ 0) :
    csum2 x (x.map fun t => a * t + b) = a * cssq x := by
  unfold csum2 cssq
  rw [zipWith_map_self]
  simp only [mean_map_affine a b hx]
  have e : (x.map fun t => (t - mean x) * ((a * t + b) - (a * mean x + b)))
      = x.map fun t => a * ((t - mean x) ^ 2) :=
    List.map_congr_left fun t _ => by ring
  rw [e, List.sum_map_mul_left]

lemma cssq_map_affine {x : List ℚ} (a b : ℚ) (hx : (x.length : ℚ) ≠ 0) :
    cssq (x.map fun t => a * t + b) = a ^ 2 * cssq x := by
  unfold cssq
  rw [List.map_map]
  simp only [Function.comp_def, mean_map_affine a b hx]
  have e : (x.map fun t => ((a * t + b) - (a * mean x + b)) ^ 2)
      = x.map fun t => a ^ 2 * ((t - mean x) ^ 2) :=
    List.map_congr_left fun t _ => by ring
  rw [e, List.sum_map_mul_left]

lemma corrcoef_eq_pearson {x y : List ℚ} (h2 : 2 ≤ x.length) :
    corrcoef x y = pearson x y := by
  have hk : (0 : ℝ) < (x.length : ℝ) - 1 := by
    have h : (2 : ℝ) ≤ (x.length : ℝ) := by exact_mod_cast h2
    linarith
  have hA : (0 : ℝ) ≤ ((cssq x : ℚ) : ℝ) := by exact_mod_cast cssq_nonneg x
  have hB : (0 : ℝ) ≤ ((cssq y : ℚ) : ℝ) := by exact_mod_cast cssq_nonneg y
  unfold corrcoef pearson
  push_cast
  rw [Real.sqrt_div hA, Real.sqrt_div hB, div_mul_div_comm,
    Real.mul_self_sqrt hk.le, div_div_div_cancel_right₀ hk.ne']

lemma ssr_expand (n : ℕ) (X Y : ℕ → ℚ) (a b : ℚ) :
    ∑ i in range n, (Y i - (a * X i + b)) ^ 2
      = ∑ i in range n, Y i ^ 2 + a ^ 2 * ∑ i in range n, X i ^ 2
        + (n : ℚ) * b ^ 2 - 2 * a * ∑ i in range n, X i * Y i
        - 2 * b * ∑ i in range n, Y i + 2 * a * b * ∑ i in range n, X i := by
  induction n with
  | zero => simp
  | succ n ih =>
      simp only [Finset.sum_range_succ]
      rw [ih]
      push_cast
      ring

lemma quad_min (n sx sy sxxv sxyv a b m c : ℚ) (hn : 0 < n)
    (hD : 0 < n * sxxv - sx ^ 2)
    (hm : m * (n * sxxv - sx ^ 2) = n * sxyv - sx * sy)
    (hc : c * n = sy - m * sx) :
    m ^ 2 * sxxv + n * c ^ 2 - 2 * m * sxyv - 2 * c * sy + 2 * m * c * sx
      ≤ a ^ 2 * sxxv + n * b ^ 2 - 2 * a * sxyv - 2 * b * sy + 2 * a * b * sx := by
  have key : n * ((a ^ 2 * sxxv + n * b ^ 2 - 2 * a * sxyv - 2 * b * sy + 2 * a * b * sx)
      - (m ^ 2 * sxxv + n * c ^ 2 - 2 * m * sxyv - 2 * c * sy + 2 * m * c * sx))
      = (n * sxxv - sx ^ 2) * (a - m) ^ 2 + (n * b + a * sx - sy) ^ 2 := by
    linear_combination (2 * (a - m)) * hm + (sy - m * sx - c * n) * hc
  nlinarith [key, mul_nonneg hD.le (sq_nonneg (a - m)), sq_nonneg (n * b + a * sx - sy), hn]

lemma ssr_min {x y : List ℚ} (hlen : y.length = x.length) (hD : 0 < olsDenom x)
    (a b : ℚ) :
    ssr x y (polyfitSlope x y) (polyfitIntercept x y) ≤ ssr x y a b := by
  have hn : 0 < (x.length : ℚ) := length_cast_pos_of_olsDenom hD.ne'
  have hm : polyfitSlope x y * olsDenom x
      = (x.length : ℚ) * Sxy x y - x.sum * y.sum := by
    unfold polyfitSlope
    exact div_mul_cancel₀ _ hD.ne'
  have hc : polyfitIntercept x y * (x.length : ℚ)
      = y.sum - polyfitSlope x y * x.sum := by
    unfold polyfitIntercept
    exact div_mul_cancel₀ _ hn.ne'
  have hD2 : 0 < (x.length : ℚ) * Sxx x - x.sum ^ 2 := hD
  have eY : y.sum = ∑ i in range x.length, y.getD i 0 := by
    rw [list_sum_getD y, hlen]
  have essr : ∀ a' b' : ℚ, ssr x y a' b'
      = ∑ i in range x.length, (y.getD i 0) ^ 2 + a' ^ 2 * Sxx x
        + (x.length : ℚ) * b' ^ 2 - 2 * a' * Sxy x y - 2 * b' * y.sum
        + 2 * a' * b' * x.sum := by
    intro a' b'
    rw [ssr, zipWith_sum_getD (fun xi yi => (yi - (a' * xi + b')) ^ 2) x y hlen,
      ssr_expand x.length (fun i => x.getD i 0) (fun i => y.getD i 0) a' b',
      Sxx, Sxy, map_sum_getD, zipWith_sum_getD (· * ·) x y hlen, list_sum_getD x, eY]
  rw [essr (polyfitSlope x y) (polyfitIntercept x y), essr a b]
  have h := quad_min (x.length : ℚ) x.sum y.sum (Sxx x) (Sxy x y) a b
    (polyfitSlope x y) (polyfitIntercept x y) hn hD2 hm hc
  linarith

lemma dataCell_x (z : ℕ → ℚ) (n : ℕ) (σ : ℚ) :
    (dataCell z n σ).x = linspace 0 10 n := rfl

lemma dataCell_x_length (z : ℕ → ℚ) (n : ℕ) (σ : ℚ) :
    (dataCell z n σ).x.length = n := by
  rw [dataCell_x, linspace_length]

lemma dataCell_y_length (z : ℕ → ℚ) (n : ℕ) (σ : ℚ) :
    (dataCell z n σ).y.length = n := by
  show (List.zipWith _ (linspace 0 10 n) (noiseDraws z σ n)).length = n
  rw [List.length_zipWith, linspace_length]
  simp [noiseDraws]

lemma noiseDraws_zero (z : ℕ → ℚ) (n : ℕ) :
    noiseDraws z 0 n = List.replicate n 0 := by
  unfold noiseDraws
  rw [show (fun i : ℕ => (0 : ℚ) * z i) = fun i : ℕ => (0 : ℚ) from by
    funext i
    ring]
  rw [List.map_const', List.length_range]

lemma dataCell_y_sigma_zero (z : ℕ → ℚ) (n : ℕ) :
    (dataCell z n 0).y = (linspace 0 10 n).map fun t => 2.5 * t + 5 := by
  show List.zipWith (fun xi e => 2.5 * xi + 5 + e) (linspace 0 10 n) (noiseDraws z 0 n) = _
  rw [noiseDraws_zero,
    zipWith_replicate_right _ 0 _ n (le_of_eq (linspace_length 0 10 n))]
  exact List.map_congr_left fun t _ => by ring

lemma olsDenom_replicate (n : ℕ) (c : ℚ) : olsDenom (List.replicate n c) = 0 := by
  unfold olsDenom Sxx
  rw [List.map_replicate, List.sum_replicate, List.sum_replicate, List.length_replicate]
  simp only [nsmul_eq_mul]
  ring

lemma cssq_replicate (n : ℕ) (c : ℚ) : cssq (List.replicate n c) = 0 := by
  cases n with
  | zero => simp [cssq]
  | succ m =>
      have hmean : mean (List.replicate (m + 1) c) = c := by
        unfold mean
        rw [List.sum_replicate, List.length_replicate]
        simp only [nsmul_eq_mul]
        exact mul_div_cancel_left₀ c (by push_cast; positivity)
      unfold cssq
      rw [hmean, List.map_replicate]
      simp

lemma all_eq_of_length_lt_two {x : List ℚ} (h : x.length < 2) :
    ∀ a ∈ x, ∀ b ∈ x, a = b := by
  intro a ha b hb
  cases x with
  | nil => simp at ha
  | cons p t =>
      cases t with
      | nil =>
          simp at ha hb
          rw [ha, hb]
      | cons q s =>
          exfalso
          simp only [List.length_cons] at h
          omega

lemma digitChar_isDigit {d : ℕ} (h : d < 10) : (Nat.digitChar d).isDigit = true := by
  interval_cases d <;> decide

lemma formatFixed_isFixedPoint (q : ℚ) {k : ℕ} (hk : k ≠ 0) :
    IsFixedPointString (formatFixed q k) k := by
  refine ⟨if q < 0 then "-" else "",
    (roundHalfEven (q * (10 : ℚ) ^ k)).natAbs / 10 ^ k,
    (List.range k).map fun i =>
      Nat.digitChar ((roundHalfEven (q * (10 : ℚ) ^ k)).natAbs % 10 ^ k / 10 ^ (k - 1 - i) % 10),
    ?_, ?_, ?_, ?_⟩
  · split_ifs <;> simp
  · simp only [formatFixed, decimalDigits, if_neg hk]
  · simp
  · intro c hc
    obtain ⟨i, _, rfl⟩ := List.mem_map.mp hc
    exact digitChar_isDigit (Nat.mod_lt _ (by norm_num))

lemma pearson_affine_pos {x : List ℚ} {a : ℚ} (b : ℚ) (ha : 0 < a)
    (hlen : (x.length : ℚ) ≠ 0) (hc : 0 < cssq x) :
    pearson x (x.map fun t => a * t + b) = 1 := by
  unfold pearson
  rw [csum2_affine a b hlen, cssq_map_affine a b hlen]
  have hcR : (0 : ℝ) < ((cssq x : ℚ) : ℝ) := by exact_mod_cast hc
  have haR : (0 : ℝ) < ((a : ℚ) : ℝ) := by exact_mod_cast ha
  push_cast
  rw [Real.sqrt_mul (sq_nonneg _), Real.sqrt_sq haR.le,
    show Real.sqrt ((cssq x : ℚ) : ℝ) * ((a : ℚ) * Real.sqrt ((cssq x : ℚ) : ℝ))
      = (a : ℚ) * (Real.sqrt ((cssq x : ℚ) : ℝ) * Real.sqrt ((cssq x : ℚ) : ℝ)) from by
        ring,
    Real.mul_self_sqrt hcR.le]
  exact div_self (mul_ne_zero haR.ne' hcR.ne')

lemma cssq_linspace_pos {n : ℕ} (hn : 2 ≤ n) : 0 < cssq (linspace 0 10 n) := by
  have hD := olsDenom_linspace_pos hn
  have hl : (0 : ℚ) < ((linspace 0 10 n).length : ℚ) := by
    rw [linspace_length]
    exact_mod_cast (by omega : 0 < n)
  have hs := cssq_scaled (x := linspace 0 10 n) hl.ne'
  nlinarith [hD, hl]

/-- C1: with σ = 0 and any slider-reachable n, the noise vector is identically
zero, the data lie exactly on y = 2.5x + 5, and the fit cell returns slope
exactly 2.5, intercept exactly 5, and correlation r exactly 1 (our exact
rational/real model; the claim's floating-point tolerances follow a fortiori). -/
theorem C1_sigma_zero_exact (z : ℕ → ℚ) (n : ℕ) (hn : SliderReachableN n) :
    polyfitSlope (dataCell z n 0).x (dataCell z n 0).y = 2.5 ∧
    polyfitIntercept (dataCell z n 0).x (dataCell z n 0).y = 5 ∧
    corrcoef (dataCell z n 0).x (dataCell z n 0).y = 1 := by
  have h2 : 2 ≤ n := by
    obtain ⟨k, _, rfl⟩ := hn
    omega
  have hD := olsDenom_linspace_pos h2
  rw [dataCell_x, dataCell_y_sigma_zero]
  have hlen : ((linspace 0 10 n).length : ℚ) ≠ 0 := by
    rw [linspace_length]
    exact_mod_cast (by omega : n ≠ 0)
  have hxlen2 : 2 ≤ (linspace 0 10 n).length := by
    rw [linspace_length]
    exact h2
  refine ⟨polyfitSlope_affine 2.5 5 hD.ne', polyfitIntercept_affine 2.5 5 hD.ne', ?_⟩
  rw [corrcoef_eq_pearson hxlen2]
  exact pearson_affine_pos 5 (by norm_num) hlen (cssq_linspace_pos h2)

/-- Witness for C1 at the concrete slider value n = 50. -/
theorem C1_sigma_zero_exact_witness :
    polyfitSlope (dataCell zdemo 50 0).x (dataCell zdemo 50 0).y = 2.5 ∧
    polyfitIntercept (dataCell zdemo 50 0).x (dataCell zdemo 50 0).y = 5 ∧
    corrcoef (dataCell zdemo 50 0).x (dataCell zdemo 50 0).y = 1 :=
  C1_sigma_zero_exact zdemo 50 ⟨0, by norm_num, rfl⟩

/-- C2 as stated is false on the code: the data cell reseeds with
`np.random.default_rng(42)` on every execution, so two executions from
different leftover generator states (positions 0 and 7 of the stream, i.e.
different prior draw counts) still produce identical outputs. -/
theorem C2_counterexample :
    ¬ (∀ (z : ℕ → ℚ) (g₁ g₂ : RngState) (n : ℕ) (σ : ℚ),
        (execDataCell z g₁ n σ).1 = (execDataCell z g₂ n σ).1 → g₁ = g₂) := by
  intro h
  exact absurd (h zdemo ⟨0⟩ ⟨7⟩ 50 1 rfl) (by decide)

/-- C2 (amended): for every fixed pair (n, σ), re-running the data generation
cell regenerates identical noise draws and datasets regardless of the
invocation order or the count of draws performed before it, because the cell
constructs a fresh seed-42 generator on every execution. -/
theorem C2_reproducible_always (z : ℕ → ℚ) (g₁ g₂ : RngState) (n : ℕ) (σ : ℚ) :
    (execDataCell z g₁ n σ).1 = (execDataCell z g₂ n σ).1 := rfl

/-- C3: for every slider-reachable n and any σ, the data cell computes x as n
evenly spaced points over [0, 10] and y pointwise as 2.5·x + 5 + noise, the
noise being the mean-0 std-σ draws σ·z i from the fixed seed-42 stream — the
dataset described by the spec. -/
theorem C3_data_generation (z : ℕ → ℚ) (σ : ℚ) (n : ℕ) (hn : SliderReachableN n) :
    dataCell z n σ = dataSpec z n σ := by
  have h2 : 2 ≤ n := by
    obtain ⟨k, _, rfl⟩ := hn
    omega
  show Dataset.mk (linspace 0 10 n)
      (List.zipWith (fun xi e => 2.5 * xi + 5 + e) (linspace 0 10 n) (noiseDraws z σ n))
    = Dataset.mk (linspace 0 10 n)
      ((List.range n).map fun i => 2.5 * ((linspace 0 10 n).getD i 0) + 5 + σ * z i)
  have hy : List.zipWith (fun xi e => 2.5 * xi + 5 + e) (linspace 0 10 n) (noiseDraws z σ n)
      = (List.range n).map fun i => 2.5 * ((linspace 0 10 n).getD i 0) + 5 + σ * z i := by
    rw [linspace_eq_map h2]
    unfold noiseDraws
    rw [zipWith_map_map]
    refine List.map_congr_left fun i hi => ?_
    have hilt : i < n := List.mem_range.mp hi
    have hgd : (((List.range n).map fun j : ℕ => 10 * (j : ℚ) / ((n : ℚ) - 1)).getD i 0)
        = 10 * (i : ℚ) / ((n : ℚ) - 1) := by
      rw [List.getD_eq_getElem _ 0 (by simpa using hilt), List.getElem_map,
        List.getElem_range]
    rw [hgd]
  rw [hy]

/-- Witness for C3 at the concrete slider value n = 50 with σ = 0. -/
theorem C3_data_generation_witness : dataCell zdemo 50 0 = dataSpec zdemo 50 0 :=
  C3_data_generation zdemo 0 50 ⟨0, by norm_num, rfl⟩

/-- C4: for all n ≥ 2 and σ ≥ 0, the dataset has x with exactly n elements,
monotonically non-decreasing, spanning [0, 10] (first element 0, last 10),
y of the same length n, and the fit cell's y-hat has the same length as x. -/
theorem C4_dataset_invariants (z : ℕ → ℚ) (n : ℕ) (σ : ℚ) (hn : 2 ≤ n) (hσ : 0 ≤ σ) :
    (dataCell z n σ).x.length = n ∧
    (dataCell z n σ).x.Pairwise (· ≤ ·) ∧
    (dataCell z n σ).x.head? = some 0 ∧
    (dataCell z n σ).x.getLast? = some 10 ∧
    (dataCell z n σ).y.length = n ∧
    ∀ a b : ℚ, (y_hat a b (dataCell z n σ).x).length = (dataCell z n σ).x.length := by
  refine ⟨dataCell_x_length z n σ, ?_, ?_, ?_, dataCell_y_length z n σ, ?_⟩
  · rw [dataCell_x]
    exact linspace_pairwise_le hn
  · rw [dataCell_x]
    exact linspace_head hn
  · rw [dataCell_x]
    exact linspace_getLast hn
  · intro a b
    rw [y_hat, List.length_map]

/-- Witness for C4 at n = 2, σ = 0. -/
theorem C4_dataset_invariants_witness :
    (dataCell zdemo 2 0).x.length = 2 ∧
    (dataCell zdemo 2 0).x.Pairwise (· ≤ ·) ∧
    (dataCell zdemo 2 0).x.head? = some 0 ∧
    (dataCell zdemo 2 0).x.getLast? = some 10 ∧
    (dataCell zdemo 2 0).y.length = 2 ∧
    ∀ a b : ℚ, (y_hat a b (dataCell zdemo 2 0).x).length = (dataCell zdemo 2 0).x.length :=
  C4_dataset_invariants zdemo 2 0 (by norm_num) le_rfl

/-- C5: the fit cell's slope and intercept are exactly the closed-form OLS
solution minimizing the sum of squared residuals over (x, y); r equals the
independently computed Pearson correlation coefficient; and y-hat is pointwise
slope·x + intercept.  The model is the exact closed form — nothing iterative. -/
theorem C5_fit_refinement (x y : List ℚ) (a b : ℚ)
    (hlen : y.length = x.length) (h2 : 2 ≤ x.length) (hD : 0 < olsDenom x) :
    ssr x y (polyfitSlope x y) (polyfitIntercept x y) ≤ ssr x y a b ∧
    corrcoef x y = pearson x y ∧
    ∀ i < x.length,
      (y_hat (polyfitSlope x y) (polyfitIntercept x y) x).getD i 0
        = polyfitSlope x y * x.getD i 0 + polyfitIntercept x y :=
  ⟨ssr_min hlen hD a b, corrcoef_eq_pearson h2, fun i hi => getD_map _ x i hi⟩

/-- Witness for C5 on the concrete data x = [0, 5, 10], y = [1, 2, 4] against
the competitor line a = 0, b = 0. -/
theorem C5_fit_refinement_witness :
    ssr [(0 : ℚ), 5, 10] [(1 : ℚ), 2, 4]
        (polyfitSlope [(0 : ℚ), 5, 10] [(1 : ℚ), 2, 4])
        (polyfitIntercept [(0 : ℚ), 5, 10] [(1 : ℚ), 2, 4])
      ≤ ssr [(0 : ℚ), 5, 10] [(1 : ℚ), 2, 4] 0 0 ∧
    corrcoef [(0 : ℚ), 5, 10] [(1 : ℚ), 2, 4]
      = pearson [(0 : ℚ), 5, 10] [(1 : ℚ), 2, 4] ∧
    ∀ i < ([(0 : ℚ), 5, 10] : List ℚ).length,
      (y_hat (polyfitSlope [(0 : ℚ), 5, 10] [(1 : ℚ), 2, 4])
          (polyfitIntercept [(0 : ℚ), 5, 10] [(1 : ℚ), 2, 4]) [(0 : ℚ), 5, 10]).getD i 0
        = polyfitSlope [(0 : ℚ), 5, 10] [(1 : ℚ), 2, 4] * ([(0 : ℚ), 5, 10] : List ℚ).getD i 0
          + polyfitIntercept [(0 : ℚ), 5, 10] [(1 : ℚ), 2, 4] :=
  C5_fit_refinement [0, 5, 10] [1, 2, 4] 0 0 (by decide) (by decide)
    (by norm_num [olsDenom, Sxx])

/-- C7: on a degenerate dataset (fewer than two points, or all x identical) the
closed-form denominators of the fit cell vanish with no guard: the polyfit
normal-equation denominator n·Σx² − (Σx)² and the centered x-variance
Σ(x − x̄)² under the correlation's square root are both zero, so the
floating-point evaluation of these formulas is undefined (NaN or a division
error surfaced as an exception by the host runtime). -/
theorem C7_degenerate_fit (x : List ℚ)
    (h : x.length < 2 ∨ ∀ a ∈ x, ∀ b ∈ x, a = b) :
    olsDenom x = 0 ∧ cssq x = 0 := by
  have hall : ∀ a ∈ x, ∀ b ∈ x, a = b := by
    rcases h with h | h
    · exact all_eq_of_length_lt_two h
    · exact h
  cases x with
  | nil => exact ⟨by simp [olsDenom, Sxx], by simp [cssq]⟩
  | cons p t =>
      have hx : p :: t = List.replicate (p :: t).length p :=
        List.eq_replicate_of_mem fun b hb => hall b hb p (List.mem_cons_self p t)
      constructor
      · rw [hx]
        exact olsDenom_replicate _ _
      · rw [hx]
        exact cssq_replicate _ _

/-- Witness for C7 on the constant list [3, 3, 3]. -/
theorem C7_degenerate_fit_witness :
    olsDenom [(3 : ℚ), 3, 3] = 0 ∧ cssq [(3 : ℚ), 3, 3] = 0 :=
  C7_degenerate_fit [3, 3, 3] (Or.inr (by decide))

/-- C8: the chart cell produces exactly two series — the observed (x, y) points
as markers and the fitted line as a line — with a title, both axes labeled, and
the legend horizontal and anchored at the top-right (x = 1 right-anchored,
y = 1.02 bottom-anchored, orientation "h"). -/
theorem C8_chart_spec (d : Dataset) (yh : List ℚ) :
    (chartCell d yh).traces.length = 2 ∧
    (chartCell d yh).traces.getD 0 ⟨[], [], "", ""⟩
      = { x := d.x, y := d.y, mode := "markers", name := "observations" } ∧
    (chartCell d yh).traces.getD 1 ⟨[], [], "", ""⟩
      = { x := d.x, y := yh, mode := "lines", name := "fit" } ∧
    (chartCell d yh).title = "Linear relationship with controllable noise" ∧
    (chartCell d yh).xaxisTitle = "x" ∧
    (chartCell d yh).yaxisTitle = "y" ∧
    (chartCell d yh).legend
      = { orientation := "h", yanchor := "bottom", y := 102 / 100,
          xanchor := "right", x := 1 } :=
  ⟨rfl, rfl, rfl, rfl, rfl, rfl, rfl⟩

/-- C9 (implicit): because the data cell constructs a fresh generator seeded
with 42 on every execution, its output is the pure function `dataCell` of the
slider values — independent of the generator state left by earlier executions,
hence identical across any two executions with equal slider values. -/
theorem C9_data_pure_function (z : ℕ → ℚ) (g : RngState) (n : ℕ) (σ : ℚ) :
    (execDataCell z g n σ).1 = dataCell z n σ := by
  simp [execDataCell, dataCell, drawNormals, noiseDraws, defaultRng]

/-- C10 (implicit): under the slider precondition (n reachable, hence n ≥ 50),
x contains two distinct values (0 and 10 both occur), its centered variance is
strictly positive, and the polyfit denominator is strictly positive — so the
degenerate branch is unreachable through the UI and slope, intercept and r are
well-defined. -/
theorem C10_ui_no_degenerate (n : ℕ) (hn : SliderReachableN n) :
    50 ≤ n ∧
    (∃ a ∈ linspace 0 10 n, ∃ b ∈ linspace 0 10 n, a ≠ b) ∧
    0 < cssq (linspace 0 10 n) ∧
    0 < olsDenom (linspace 0 10 n) := by
  have h50 : 50 ≤ n := by
    obtain ⟨k, _, rfl⟩ := hn
    omega
  have h2 : 2 ≤ n := by omega
  refine ⟨h50, ?_, cssq_linspace_pos h2, olsDenom_linspace_pos h2⟩
  refine ⟨0, List.mem_of_mem_head? (by rw [linspace_head h2]; rfl),
    10, List.mem_of_mem_getLast? (by rw [linspace_getLast h2]; rfl), by norm_num⟩

/-- Witness for C10 at the concrete slider value n = 50. -/
theorem C10_ui_no_degenerate_witness :
    50 ≤ 50 ∧
    (∃ a ∈ linspace 0 10 50, ∃ b ∈ linspace 0 10 50, a ≠ b) ∧
    0 < cssq (linspace 0 10 50) ∧
    0 < olsDenom (linspace 0 10 50) :=
  C10_ui_no_degenerate 50 ⟨0, by norm_num, rfl⟩

set_option maxRecDepth 10000

lemma roundHalfEven_ten : roundHalfEven 10 = 10 := by
  unfold roundHalfEven
  norm_num

lemma formatFixed_one_one : formatFixed 1 1 = "1.0" := by
  have h1 : (1 : ℚ) * 10 ^ 1 = 10 := by norm_num
  simp only [formatFixed, h1, roundHalfEven_ten]
  norm_num
  decide

/-- C6: for every input (σ, n, slope, intercept, r), the report formats slope
and intercept with exactly 2 fractional digits, r with exactly 3, σ with
exactly 1, and n as a plain integer substring; and for n = 300, σ = 1.0 the
report text contains the substrings "Sample size**: **300" and "σ)**: **1.0**". -/
theorem C6_report_formatting (σ : ℚ) (nv : ℕ) (slope intercept r : ℚ) :
    IsFixedPointString (formatFixed slope 2) 2 ∧
    IsFixedPointString (formatFixed intercept 2) 2 ∧
    IsFixedPointString (formatFixed r 3) 3 ∧
    IsFixedPointString (formatFixed σ 1) 1 ∧
    containsSub (report σ nv slope intercept r) (Nat.repr nv) ∧
    containsSub (report 1 300 slope intercept r) "Sample size**: **300" ∧
    containsSub (report 1 300 slope intercept r) "σ)**: **1.0**" := by
  refine ⟨formatFixed_isFixedPoint slope (by norm_num),
    formatFixed_isFixedPoint intercept (by norm_num),
    formatFixed_isFixedPoint r (by norm_num),
    formatFixed_isFixedPoint σ (by norm_num), ?_, ?_, ?_⟩
  · refine ⟨("\n### Relationship summary\n- **Model**: $y = " ++ formatFixed slope 2
        ++ "x + " ++ formatFixed intercept 2 ++ "$\n- **Correlation**: $r = "
        ++ formatFixed r 3 ++ "$\n- **Sample size**: **").data,
      ("**\n- **Noise std (σ)**: **" ++ formatFixed σ 1
        ++ "**\n\n_As σ increases, the points spread further from the line; correlation and the stability of the fitted slope typically decrease._\n").data,
      ?_⟩
    simp [report, String.data_append, List.append_assoc]
  · refine ⟨("\n### Relationship summary\n- **Model**: $y = " ++ formatFixed slope 2
        ++ "x + " ++ formatFixed intercept 2 ++ "$\n- **Correlation**: $r = "
        ++ formatFixed r 3 ++ "$\n- **").data,
      ("**\n- **Noise std (σ)**: **1.0**\n\n_As σ increases, the points spread further from the line; correlation and the stability of the fitted slope typically decrease._\n").data,
      ?_⟩
    simp only [report, formatFixed_one_one, String.data_append, List.append_assoc]
    rw [List.append_right_inj, List.append_right_inj, List.append_right_inj,
      List.append_right_inj, List.append_right_inj, List.append_right_inj]
    decide
  · refine ⟨("\n### Relationship summary\n- **Model**: $y = " ++ formatFixed slope 2
        ++ "x + " ++ formatFixed intercept 2 ++ "$\n- **Correlation**: $r = "
        ++ formatFixed r 3
        ++ "$\n- **Sample size**: **300**\n- **Noise std (").data,
      ("\n\n_As σ increases, the points spread further from the line; correlation and the stability of the fitted slope typically decrease._\n").data,
      ?_⟩
    simp only [report, formatFixed_one_one, String.data_append, List.append_assoc]
    rw [List.append_right_inj, List.append_right_inj, List.append_right_inj,
      List.append_right_inj, List.append_right_inj, List.append_right_inj]
    decide

end MarimoAnalysis
